import Mathlib

/-!
# Verification of the `sample` stack collapser

A shallow embedding of `src/collapse/sample.rs`: the folder that turns the
indentation-structured call-graph text emitted by the macOS `sample` profiler
into folded-stack lines.  Strings are modelled as `List Char` (Rust slices
index bytes, but every index the code computes falls on an ASCII character,
so character positions and byte positions agree on the sliced regions).
-/

set_option maxHeartbeats 1000000

namespace Inferno

/-- Characters with the Unicode White_Space property, the set accepted by
Rust's `char::is_whitespace` and hence trimmed by `str::trim_start` and
`str::trim_end`. -/
def isRustWhitespace (c : Char) : Bool :=
  [0x9, 0xA, 0xB, 0xC, 0xD, 0x20, 0x85, 0xA0, 0x1680,
   0x2000, 0x2001, 0x2002, 0x2003, 0x2004, 0x2005, 0x2006, 0x2007,
   0x2008, 0x2009, 0x200A, 0x2028, 0x2029, 0x202F, 0x205F, 0x3000].contains c.toNat

/-- Rust `str::trim_start`. -/
def trimStart (l : List Char) : List Char := l.dropWhile isRustWhitespace

/-- Rust `str::trim_end`. -/
def trimEnd (l : List Char) : List Char := (l.reverse.dropWhile isRustWhitespace).reverse

/-- Rust `str::starts_with`. -/
def starts_with (l p : List Char) : Bool := decide (p <+: l)

/-- Rust `str::ends_with`. -/
def ends_with (l s : List Char) : Bool := decide (s <:+ l)

/-- Rust `str::parse::<usize>`: an optional leading `+` sign followed by one or
more ASCII digits, failing on overflow past `usize::MAX` (64-bit). -/
def parseUsize (s : List Char) : Option Nat :=
  let t := match s with
    | '+' :: r => r
    | _ => s
  if t ≠ [] ∧ t.all Char.isDigit then
    let n := t.foldl (fun a c => a * 10 + (c.toNat - 48)) 0
    if n < 2 ^ 64 then some n else none
  else none

/-- The backtick character, used to join a module to a function name. -/
def backtickChar : Char := Char.ofNat 96

/-- The `IGNORE_SYMBOLS` table: symbols of waiting threads whose stacks are
suppressed. -/
def IGNORE_SYMBOLS : List (List Char) :=
  [("__psynch_cvwait").data, ("__select").data, ("__semwait_signal").data,
   ("__ulock_wait").data, ("__wait4").data, ("__workq_kernreturn").data,
   ("kevent").data, ("mach_msg_trap").data, ("read").data,
   ("semaphore_wait_trap").data]

/-- `START_LINE`: the call graph begins after this line. -/
def START_LINE : List Char := ("Call graph:").data

/-- `END_LINE`: the section after the call graph begins with this. -/
def END_LINE : List Char := ("Total number in stack").data

/-- The mandatory four-space prefix of data lines. -/
def FOUR_SPACES : List Char := ("    ").data

/-- The module-annotation marker `"(in "`. -/
def IN_PAT : List Char := ("(in ").data

/-- The `".dylib"` suffix stripped from module names. -/
def DYLIB : List Char := (".dylib").data

/-- The indices at which the pattern `pat` occurs in `s`. -/
def occIdxs (pat s : List Char) : List Nat :=
  (List.range s.length).filter (fun i => starts_with (s.drop i) pat)

/-- Rust `s.rsplitn(2, pat).next()` for a non-empty pattern: the part of `s`
after the last occurrence of `pat`, or all of `s` when `pat` does not occur
(`rsplitn` always yields at least one item). -/
def afterLastOcc (pat s : List Char) : List Char :=
  match (occIdxs pat s).getLast? with
  | some i => s.drop (i + pat.length)
  | none => s

/-- The final step of module extraction: `if module.ends_with(".dylib")`,
remove those six bytes. -/
def strip_dylib (module : List Char) : List Char :=
  if ends_with module DYLIB then module.take (module.length - 6) else module

/-- The module-extraction block of `Folder::line_parts` (the body of
`if !self.opt.no_modules`): take the part of `rest` after the last `"(in "`,
cut it at the first `)` (leaving the module empty when there is none), and
strip a trailing `".dylib"`. -/
def extract_module (rest : List Char) : List Char :=
  let tail := afterLastOcc IN_PAT rest
  let module := match tail.findIdx? (fun c => c == ')') with
    | some close => tail.take close
    | none => []
  strip_dylib module

/-- `Folder::line_parts`: split an indentation-stripped data line into the
sample-count token, the function name (everything before the first `(`,
right-trimmed), and the module name. -/
def line_parts (no_modules : Bool) (line : List Char) :
    Option (List Char × List Char × List Char) :=
  let l := trimStart line
  let time := trimEnd (l.takeWhile (fun c => !(c == ' ')))
  match l.findIdx? (fun c => c == ' ') with
  | none => none
  | some i =>
    let rest := l.drop (i + 1)
    let func := trimEnd (match rest.findIdx? (fun c => c == '(') with
      | some openIdx => rest.take openIdx
      | none => rest)
    let module := if no_modules then [] else extract_module rest
    some (time, func, module)

/-- `Folder::is_indent_char`. -/
def is_indent_char (c : Char) : Bool :=
  c == ' ' || c == '+' || c == '|' || c == ':' || c == '!'

/-- The mutable state of a `Folder` (`opt.no_modules` is immutable and passed
separately). -/
structure Folder where
  current_samples : Nat
  stack : List (List Char)
deriving DecidableEq, Repr

/-- The occurrence map, as an insertion-ordered association list. -/
abbrev Occurrences := List (List Char × Nat)

/-- Modelled from the spec: `Occurrences::insert` from `collapse/common.rs` is
not part of this source file.  Per the spec's Occurrence Aggregator contract,
`insert(key, count)` "adds `count` to the existing value for `key`, or creates
the entry with that value if absent.  Accumulation, never overwrite", and
`write_and_clear` later emits the accumulated pairs in implementation-defined
order (here: first-insertion order). -/
def insertOcc (occ : Occurrences) (key : List Char) (count : Nat) : Occurrences :=
  match occ with
  | [] => [(key, count)]
  | (k, n) :: rest =>
    if k = key then (k, n + count) :: rest else (k, n) :: insertOcc rest key count

/-- The folded-stack key built by `Folder::write_stack`: the frames joined by
semicolons. -/
def foldKey (stack : List (List Char)) : List Char := List.intercalate [';'] stack

/-- The `IGNORE_SYMBOLS` scan of `Folder::write_stack`: does the leaf frame
end with one of the ignored symbols? -/
def ignCheck (func : List Char) : Bool := IGNORE_SYMBOLS.any (fun s => ends_with func s)

/-- `Folder::write_stack`. -/
def write_stack (f : Folder) (occ : Occurrences) : Occurrences :=
  match f.stack.getLast? with
  | some func =>
    if ignCheck func then occ else insertOcc occ (foldKey f.stack) f.current_samples
  | none => insertOcc occ (foldKey f.stack) f.current_samples

/-- Modelled from the spec: `common::fix_partially_demangled_rust_symbol` is
not part of this source file.  The spec describes it as "a narrow, known
transformation correcting a specific profiler's partial name-mangling artifact
— not a general demangler"; it is modelled as the identity, its behaviour on
every symbol free of that artifact (in particular on all symbols appearing in
the claims' inputs). -/
def fix_partially_demangled_rust_symbol (func : List Char) : List Char := func

/-- `n` iterations of `Vec::pop` (the loop `for _ in 0..=prev_depth - depth`
performs `prev_depth - depth + 1` of them). -/
def popN {α : Type} (s : List α) : Nat → List α
  | 0 => s
  | n + 1 => (popN s n).dropLast

/-- The parse-and-push tail of `Folder::on_line`: `line_parts`, the
sample-count parse, the demangle fix-up, and the `Vec::push` of the new frame
(`module` + backtick + `func` when a module is present, bare `func`
otherwise).  On either parse failure only an error is logged. -/
def parse_push (no_modules : Bool) (f : Folder) (occ : Occurrences) (rest : List Char) :
    Folder × Occurrences :=
  match line_parts no_modules rest with
  | some (samples, func, module) =>
    match parseUsize samples with
    | some n =>
      let func := fix_partially_demangled_rust_symbol func
      let frame := if module = [] then func else module ++ backtickChar :: func
      (⟨n, f.stack ++ [frame]⟩, occ)
    | none => (f, occ)
  | none => (f, occ)

/-- The depth-comparison block of `Folder::on_line`: when the decoded `depth`
is at most the previous depth (the stack length), flush the pending path with
`write_stack` and pop `prev_depth - depth + 1` frames; otherwise (a deeper
line; a skipped level is only logged) change nothing. -/
def flush_pop (f : Folder) (occ : Occurrences) (depth : Nat) : Folder × Occurrences :=
  if depth ≤ f.stack.length then
    (⟨f.current_samples, popN f.stack (f.stack.length - depth + 1)⟩, write_stack f occ)
  else (f, occ)

/-- `Folder::on_line`.  The line is guaranteed by the caller to start with
four spaces; `indent_chars` is the length of the run of indentation characters
after them (an odd run is only logged).  A line consisting solely of
indentation characters is logged and skipped. -/
def on_line (no_modules : Bool) (f : Folder) (line : List Char) (occ : Occurrences) :
    Folder × Occurrences :=
  match (line.drop 4).findIdx? (fun c => !(is_indent_char c)) with
  | some indent_chars =>
    let fo := flush_pop f occ (indent_chars / 2 + 1)
    parse_push no_modules fo.1 fo.2 ((line.drop 4).drop indent_chars)
  | none => (f, occ)

/-- The data-section loop of `<Folder as Collapse>::collapse`: the lines read
after the start marker (list end models end-of-stream, which flushes exactly
like the end marker). -/
def dataLoop (no_modules : Bool) (f : Folder) (occ : Occurrences) :
    List (List Char) → Folder × Occurrences
  | [] => (f, write_stack f occ)
  | l :: ls =>
    let t := trimEnd l
    if t = [] then dataLoop no_modules f occ ls
    else if starts_with t FOUR_SPACES then
      let r := on_line no_modules f t occ
      dataLoop no_modules r.1 r.2 ls
    else if starts_with t END_LINE then (f, write_stack f occ)
    else dataLoop no_modules f occ ls

/-- The header loop of `collapse`: consume lines until one starts with
`START_LINE`; `none` when the stream ends first (the early `return Ok(())`). -/
def skipHeader : List (List Char) → Option (List (List Char))
  | [] => none
  | l :: ls => if starts_with l START_LINE then some ls else skipHeader ls

/-- `<Folder as Collapse>::collapse` on an error-free reader: the pairs written
by `write_and_clear` (in insertion order) together with the folder state after
the call (reset to empty on the normal path; untouched when the stream ends
before the start marker, whose early return skips both the write and the
reset). -/
def collapseRun (no_modules : Bool) (f : Folder) (lines : List (List Char)) :
    List (List Char × Nat) × Folder :=
  match skipHeader lines with
  | none => ([], f)
  | some rest =>
    let r := dataLoop no_modules f [] rest
    (r.2, ⟨0, []⟩)

/-- The loop of `Folder::is_applicable`, carrying the `found_start` flag. -/
def isApplicableLoop (found : Bool) : List (List Char) → Option Bool
  | [] => none
  | l :: ls =>
    if starts_with l START_LINE then isApplicableLoop true ls
    else if starts_with l END_LINE then some found
    else isApplicableLoop found ls

/-- `Folder::is_applicable` over the lines of the given input prefix (reading
lines from a `&str` never yields an I/O error, so the `Ok` branch is the only
one taken). -/
def is_applicable (lines : List (List Char)) : Option Bool := isApplicableLoop false lines

/-- Does `on_line` fail to decode the remainder of a data line: either
`line_parts` returns `None`, or the sample-count token does not parse? -/
def parse_fails (no_modules : Bool) (rest : List Char) : Bool :=
  match line_parts no_modules rest with
  | none => true
  | some (samples, _, _) => (parseUsize samples).isNone

/-! ## Helper lemmas -/

theorem popN_length {α : Type} (s : List α) (n : Nat) :
    (popN s n).length = s.length - n := by
  induction n with
  | zero => rfl
  | succ n ih =>
    show (popN s n).dropLast.length = _
    rw [List.length_dropLast, ih]
    omega

theorem dropLast_map {α β : Type} (g : α → β) (l : List α) :
    (l.map g).dropLast = l.dropLast.map g := by
  rw [List.dropLast_eq_take, List.dropLast_eq_take, List.length_map, List.map_take]

theorem popN_map {α β : Type} (g : α → β) (s : List α) (n : Nat) :
    popN (s.map g) n = (popN s n).map g := by
  induction n with
  | zero => rfl
  | succ n ih =>
    show (popN (s.map g) n).dropLast = _
    rw [ih, dropLast_map]
    rfl

theorem popN_eq_take {α : Type} (s : List α) (n : Nat) (h : n ≤ s.length) :
    popN s n = s.take (s.length - n) := by
  induction n with
  | zero => simp [popN]
  | succ n ih =>
    show (popN s n).dropLast = _
    rw [ih (Nat.le_of_succ_le h), List.dropLast_eq_take, List.length_take, List.take_take]
    congr 1
    omega

theorem parse_push_stack_length (no_modules : Bool) (f : Folder) (occ : Occurrences)
    (rest : List Char) :
    (parse_push no_modules f occ rest).1.stack.length ≤ f.stack.length + 1 := by
  unfold parse_push
  split
  · split
    · simp
    · exact Nat.le_succ _
  · exact Nat.le_succ _

/-- When all of `a` fails the predicate and `c` satisfies it, `findIdx?` on
`a ++ c :: b` finds exactly position `a.length`. -/
theorem findIdx?_split (p : Char → Bool) (a b : List Char) (c : Char)
    (ha : ∀ x ∈ a, p x = false) (hc : p c = true) :
    (a ++ c :: b).findIdx? p = some a.length := by
  rw [List.findIdx?_append, List.findIdx?_eq_none_iff.2 ha]
  simp [List.findIdx?_cons, hc]

/-! ## The spec's concrete scenario (claim C1) -/

/-- The input of the spec's concrete scenario. -/
def sampleScenario : List (List Char) :=
  [("Call graph:").data,
   ("    5130 Thread_0001").data,
   ("    +   5130 start_wqthread").data,
   ("    +     4282 _pthread_wqthread").data,
   ("    +       4282 __doworkq_kernreturn").data,
   ("    +     848 other_func").data,
   ("Total number in stack: 1").data]

/-- C1 counterexample: on the scenario input, collapse does NOT produce the
two lines the claim states.  The actual output keys both carry the
`Thread_0001` root frame (and `other_func` is recorded under
`_pthread_wqthread`), and neither claimed line occurs in the output. -/
theorem c1_counterexample :
    (collapseRun false ⟨0, []⟩ sampleScenario).1 =
      [(("Thread_0001;start_wqthread;_pthread_wqthread;__doworkq_kernreturn").data, 4282),
       (("Thread_0001;start_wqthread;_pthread_wqthread;other_func").data, 848)] ∧
    ¬ ((("start_wqthread;_pthread_wqthread;__doworkq_kernreturn").data, 4282) ∈
        (collapseRun false ⟨0, []⟩ sampleScenario).1) ∧
    ¬ ((("start_wqthread;other_func").data, 848) ∈
        (collapseRun false ⟨0, []⟩ sampleScenario).1) := by
  refine ⟨by decide, by decide, by decide⟩

/-- C1 (amended): collapsing the scenario input produces exactly the two lines
`Thread_0001;start_wqthread;_pthread_wqthread;__doworkq_kernreturn 4282` and
`Thread_0001;start_wqthread;_pthread_wqthread;other_func 848` (for either
setting of `no_modules`; no module annotations occur), with the outer
`Thread_0001` frame subject to normal depth/leaf handling: the `+`-indented
lines decode to depths 3, 4, 5 and 4 — the first three strictly deeper than
the stack (logged as skipped levels), the fourth equal to the stack height,
flushing the pending path and popping a single frame — so `Thread_0001` is
never popped and `other_func` is pushed on top of `_pthread_wqthread`. -/
theorem c1_scenario_output :
    collapseRun false ⟨0, []⟩ sampleScenario =
      ([(("Thread_0001;start_wqthread;_pthread_wqthread;__doworkq_kernreturn").data, 4282),
        (("Thread_0001;start_wqthread;_pthread_wqthread;other_func").data, 848)], ⟨0, []⟩) ∧
    collapseRun true ⟨0, []⟩ sampleScenario =
      ([(("Thread_0001;start_wqthread;_pthread_wqthread;__doworkq_kernreturn").data, 4282),
        (("Thread_0001;start_wqthread;_pthread_wqthread;other_func").data, 848)], ⟨0, []⟩) := by
  refine ⟨by decide, by decide⟩

/-! ## Claims C9, C4, C8, C3 -/

/-- C9: `write_stack` has no guard against an empty stack: flushing with an
empty `CallStack` inserts the empty key with the current `PendingSampleCount`;
in particular `Call graph:` immediately followed by the end marker yields the
single output entry with empty key and count 0. -/
theorem c9_empty_stack_flush (f : Folder) (occ : Occurrences) (h : f.stack = []) :
    write_stack f occ = insertOcc occ [] f.current_samples ∧
    (collapseRun false ⟨0, []⟩
      [("Call graph:").data, ("Total number in stack: 1").data]).1 = [([], 0)] := by
  constructor
  · unfold write_stack
    rw [h]
    rfl
  · decide

/-- Witness for C9 at a concrete folder with pending count 3. -/
theorem c9_empty_stack_flush_witness :
    write_stack ⟨3, []⟩ [] = insertOcc [] [] 3 ∧
    (collapseRun false ⟨0, []⟩
      [("Call graph:").data, ("Total number in stack: 1").data]).1 = [([], 0)] :=
  c9_empty_stack_flush ⟨3, []⟩ [] rfl

/-- C4 counterexample: the line `    100` (depth 1, remainder `100` with no
function token) fails to parse, yet processing it from stack `[a, b]` flushes
the pending path `a;b` and pops the stack to `[]`: the `CallStack` is NOT left
as it was before the line. -/
theorem c4_counterexample :
    parse_fails false (("100").data) = true ∧
    (on_line false ⟨7, [("a").data, ("b").data]⟩ (("    100").data) []).1.stack = [] ∧
    (on_line false ⟨7, [("a").data, ("b").data]⟩ (("    100").data) []).1.stack ≠
      [("a").data, ("b").data] ∧
    (on_line false ⟨7, [("a").data, ("b").data]⟩ (("    100").data) []).2 =
      [(("a;b").data, 7)] := by
  refine ⟨by decide, by decide, by decide, by decide⟩

theorem parse_push_of_fails (no_modules : Bool) (f : Folder) (occ : Occurrences)
    (rest : List Char) (h : parse_fails no_modules rest = true) :
    parse_push no_modules f occ rest = (f, occ) := by
  unfold parse_fails at h
  rcases hlp : line_parts no_modules rest with _ | ⟨samples, func, module⟩
  · simp [parse_push, hlp]
  · simp only [hlp] at h
    rcases hpu : parseUsize samples with _ | n
    · simp [parse_push, hlp, hpu]
    · rw [hpu] at h
      simp at h

/-- C4 (amended): on a data line whose remainder fails to parse (no second
token, or a non-numeric count), `on_line` pushes nothing and leaves
`PendingSampleCount` unchanged; the `CallStack` is unchanged when the decoded
depth exceeds the previous depth, but when the depth is at most the previous
depth the flush and the pops have already happened before parsing, so the
stack has been cut back to depth − 1 and the pending path inserted. -/
theorem c4_failed_parse (no_modules : Bool) (f : Folder) (occ : Occurrences)
    (line : List Char) (ic : Nat)
    (h1 : (line.drop 4).findIdx? (fun c => !(is_indent_char c)) = some ic)
    (h2 : parse_fails no_modules ((line.drop 4).drop ic) = true) :
    on_line no_modules f line occ =
      if ic / 2 + 1 ≤ f.stack.length then
        (⟨f.current_samples, popN f.stack (f.stack.length - (ic / 2 + 1) + 1)⟩,
          write_stack f occ)
      else (f, occ) := by
  simp only [on_line, h1]
  rw [parse_push_of_fails _ _ _ _ h2]
  unfold flush_pop
  by_cases hd : ic / 2 + 1 ≤ f.stack.length
  · simp only [hd, if_true]
  · simp only [hd, if_false]

/-- Witness for C4 (amended) at the counterexample input. -/
theorem c4_failed_parse_witness :
    on_line false ⟨7, [("a").data, ("b").data]⟩ (("    100").data) [] =
      if 0 / 2 + 1 ≤ (Folder.mk 7 [("a").data, ("b").data]).stack.length then
        (⟨(Folder.mk 7 [("a").data, ("b").data]).current_samples,
          popN (Folder.mk 7 [("a").data, ("b").data]).stack
            ((Folder.mk 7 [("a").data, ("b").data]).stack.length - (0 / 2 + 1) + 1)⟩,
          write_stack ⟨7, [("a").data, ("b").data]⟩ [])
      else (⟨7, [("a").data, ("b").data]⟩, []) :=
  c4_failed_parse false ⟨7, [("a").data, ("b").data]⟩ [] (("    100").data) 0
    (by decide) (by decide)

/-- C8 counterexample: a sibling leaf at the same depth (stack `[a]`, line
`    7 b`) leaves the `CallStack` length unchanged at 1 — it neither increases
by exactly 1 nor decreases. -/
theorem c8_counterexample :
    (on_line false ⟨5, [("a").data]⟩ (("    7 b").data) []).1.stack.length = 1 ∧
    ¬ ((on_line false ⟨5, [("a").data]⟩ (("    7 b").data) []).1.stack.length = 1 + 1 ∨
       (on_line false ⟨5, [("a").data]⟩ (("    7 b").data) []).1.stack.length < 1) := by
  refine ⟨by decide, by decide⟩

/-- C8 (amended): across the processing of any single data line the
`CallStack` length never grows by 2 or more — it increases by exactly 1, stays
the same, or decreases, even when the line's indentation skips depth levels. -/
theorem flush_pop_stack_length (f : Folder) (occ : Occurrences) (depth : Nat) :
    (flush_pop f occ depth).1.stack.length ≤ f.stack.length := by
  unfold flush_pop
  split
  · simp only [popN_length]
    omega
  · exact Nat.le_refl _

theorem c8_stack_growth_bound (no_modules : Bool) (f : Folder) (line : List Char)
    (occ : Occurrences) :
    (on_line no_modules f line occ).1.stack.length ≤ f.stack.length + 1 := by
  unfold on_line
  split
  · refine le_trans (parse_push_stack_length _ _ _ _) ?_
    exact Nat.add_le_add_right (flush_pop_stack_length _ _ _) 1
  · exact Nat.le_succ _

/-- C3 counterexample: `rsplitn(2, "(in ")` yields the whole remainder when
`"(in "` does not occur, so for the line `5 foo (bar)` — whose remainder
`foo (bar)` contains no `"(in "` — `line_parts` produces the non-empty module
`foo (bar`, not the empty string the claim states. -/
theorem c3_counterexample :
    occIdxs IN_PAT (("foo (bar)").data) = [] ∧
    line_parts false (("5 foo (bar)").data) =
      some (("5").data, ("foo").data, ("foo (bar").data) ∧
    ("foo (bar").data ≠ ([] : List Char) := by
  refine ⟨by decide, by decide, by decide⟩

/-- C3 (amended): with module-qualification enabled, the module is taken from
the part of the remainder after the last `"(in "` — the whole remainder when
`"(in "` does not occur — as the text before the first `)` there (empty when
there is no `)`), with a trailing `.dylib` stripped.  So the module is empty
in the absence of `"(in "` only when the remainder also has no `)`. -/
theorem c3_module_extraction (rest : List Char) :
    (occIdxs IN_PAT rest = [] → (∀ x ∈ rest, ¬ x = ')') → extract_module rest = []) ∧
    (occIdxs IN_PAT rest = [] → ∀ a b, rest = a ++ ')' :: b → (∀ x ∈ a, ¬ x = ')') →
      extract_module rest = strip_dylib a) ∧
    (∀ i, (occIdxs IN_PAT rest).getLast? = some i →
      ∀ a b, rest.drop (i + IN_PAT.length) = a ++ ')' :: b → (∀ x ∈ a, ¬ x = ')') →
      extract_module rest = strip_dylib a) := by
  refine ⟨fun hno hrp => ?_, fun hno a b hab hrp => ?_, fun i hi a b hab hrp => ?_⟩
  · unfold extract_module afterLastOcc
    rw [hno]
    have : rest.findIdx? (fun c => c == ')') = none :=
      List.findIdx?_eq_none_iff.2 (fun x hx => by
        simpa using hrp x hx)
    simp only [List.getLast?_nil, this]
    decide
  · unfold extract_module afterLastOcc
    rw [hno]
    simp only [List.getLast?_nil, hab]
    rw [findIdx?_split (fun c => c == ')') a b ')'
        (fun x hx => by simpa using hrp x hx) (by decide)]
    simp [List.take_left]
  · unfold extract_module afterLastOcc
    simp only [hi]
    rw [hab]
    rw [findIdx?_split (fun c => c == ')') a b ')'
        (fun x hx => by simpa using hrp x hx) (by decide)]
    simp [List.take_left]

/-- Witness for C3 (amended): the module extracted from
`start_wqthread  (in libsystem_pthread.dylib) + 5130` is `libsystem_pthread`. -/
theorem c3_module_extraction_witness :
    extract_module (("start_wqthread  (in libsystem_pthread.dylib) + 5130").data) =
      strip_dylib (("libsystem_pthread.dylib").data) :=
  (c3_module_extraction (("start_wqthread  (in libsystem_pthread.dylib) + 5130").data)).2.2
    16 (by decide) (("libsystem_pthread.dylib").data) ((" + 5130").data) (by decide)
    (by decide)

/-! ## Claims C2, C5, C7 -/

/-- C2: on a data line whose decoded depth `d = ic / 2 + 1` is at most the
current stack length, `on_line` first flushes the current path with
`write_stack` (joined key, ignore filter, insertion of the pending count) and
then pops exactly `len − d + 1` frames, so the remainder is parsed and pushed
from a stack of length exactly `d − 1`. -/
theorem c2_flush_then_pop (no_modules : Bool) (f : Folder) (occ : Occurrences)
    (line : List Char) (ic : Nat)
    (h1 : (line.drop 4).findIdx? (fun c => !(is_indent_char c)) = some ic)
    (h2 : ic / 2 + 1 ≤ f.stack.length) :
    on_line no_modules f line occ =
      parse_push no_modules ⟨f.current_samples, f.stack.take (ic / 2 + 1 - 1)⟩
        (write_stack f occ) ((line.drop 4).drop ic) ∧
    popN f.stack (f.stack.length - (ic / 2 + 1) + 1) = f.stack.take (ic / 2 + 1 - 1) ∧
    (f.stack.take (ic / 2 + 1 - 1)).length = ic / 2 + 1 - 1 := by
  have hpop : popN f.stack (f.stack.length - (ic / 2 + 1) + 1) =
      f.stack.take (ic / 2 + 1 - 1) := by
    rw [popN_eq_take _ _ (by omega)]
    congr 1
    omega
  refine ⟨?_, hpop, ?_⟩
  · simp only [on_line, h1]
    have hfp : flush_pop f occ (ic / 2 + 1) =
        (⟨f.current_samples, f.stack.take (ic / 2 + 1 - 1)⟩, write_stack f occ) := by
      unfold flush_pop
      simp only [h2, if_true, hpop]
    rw [hfp]
  · rw [List.length_take]
    omega

/-- Witness for C2 at stack `[a, b]` (length 2) and the depth-1 line `    9 c`. -/
theorem c2_flush_then_pop_witness :
    on_line false ⟨5, [("a").data, ("b").data]⟩ (("    9 c").data) [] =
      parse_push false ⟨5, [("a").data, ("b").data].take (0 / 2 + 1 - 1)⟩
        (write_stack ⟨5, [("a").data, ("b").data]⟩ [])
        (((("    9 c").data).drop 4).drop 0) ∧
    popN [("a").data, ("b").data] ([("a").data, ("b").data].length - (0 / 2 + 1) + 1) =
      [("a").data, ("b").data].take (0 / 2 + 1 - 1) ∧
    ([("a").data, ("b").data].take (0 / 2 + 1 - 1)).length = 0 / 2 + 1 - 1 :=
  c2_flush_then_pop false ⟨5, [("a").data, ("b").data]⟩ [] (("    9 c").data) 0
    (by decide) (by decide)

theorem start_end_exclusive (e : List Char) (he : END_LINE <+: e)
    (hs : START_LINE <+: e) : False := by
  obtain ⟨t, ht⟩ := hs
  obtain ⟨u, hu⟩ := he
  have h1 : e.head? = some 'C' := by rw [← ht]; rfl
  have h2 : e.head? = some 'T' := by rw [← hu]; rfl
  rw [h1] at h2
  exact absurd h2 (by decide)

theorem isApplicableLoop_no_end (found : Bool) (ls : List (List Char))
    (h : ∀ l ∈ ls, ¬ (END_LINE <+: l)) : isApplicableLoop found ls = none := by
  induction ls generalizing found with
  | nil => rfl
  | cons l ls ih =>
    have hl : starts_with l END_LINE = false := by
      simp [starts_with, h l (List.mem_cons_self _ _)]
    unfold isApplicableLoop
    by_cases hs : starts_with l START_LINE
    · simp only [hs, if_true]
      exact ih true (fun x hx => h x (List.mem_cons_of_mem _ hx))
    · simp only [hs, hl, if_false]
      exact ih found (fun x hx => h x (List.mem_cons_of_mem _ hx))

theorem isApplicableLoop_first_end (found : Bool) (pre : List (List Char))
    (e : List Char) (rest : List (List Char)) (he : END_LINE <+: e)
    (hpre : ∀ p ∈ pre, ¬ (END_LINE <+: p)) :
    isApplicableLoop found (pre ++ e :: rest) =
      some (found || pre.any (fun l => starts_with l START_LINE)) := by
  induction pre generalizing found with
  | nil =>
    have hs : starts_with e START_LINE = false := by
      simp only [starts_with, decide_eq_false_iff_not]
      exact fun h => start_end_exclusive e he h
    have hend : starts_with e END_LINE = true := by
      simpa [starts_with] using he
    simp [isApplicableLoop, hs, hend]
  | cons p pre ih =>
    have hp : starts_with p END_LINE = false := by
      simp [starts_with, hpre p (List.mem_cons_self _ _)]
    have hrec := fun b => ih b (fun x hx => hpre x (List.mem_cons_of_mem _ hx))
    show isApplicableLoop found (p :: (pre ++ e :: rest)) = _
    unfold isApplicableLoop
    by_cases hs : starts_with p START_LINE
    · simp only [hs, if_true, hrec true]
      simp [hs]
    · simp only [hs, hp, if_false, hrec found]
      simp [hs]

/-- C5: `is_applicable` returns `some false` when the first end-marker line is
preceded by no start-marker line, `some true` when a start-marker line comes
before it, and `none` when the given prefix contains no end-marker line at
all, even if the start marker was seen. -/
theorem c5_is_applicable (pre : List (List Char)) (e : List Char)
    (rest : List (List Char)) (he : END_LINE <+: e)
    (hpre : ∀ p ∈ pre, ¬ (END_LINE <+: p)) :
    is_applicable (pre ++ e :: rest) =
      some (pre.any (fun l => starts_with l START_LINE)) ∧
    ∀ ls : List (List Char), (∀ l ∈ ls, ¬ (END_LINE <+: l)) →
      is_applicable ls = none := by
  constructor
  · simpa [is_applicable] using
      isApplicableLoop_first_end false pre e rest he hpre
  · exact fun ls h => isApplicableLoop_no_end false ls h

/-- Witness for C5: an end marker preceded only by a non-marker line gives
`some false` (and inputs without an end marker give `none`). -/
theorem c5_is_applicable_witness :
    is_applicable [("x").data, ("Total number in stack: 1").data] =
      some ([("x").data].any (fun l => starts_with l START_LINE)) ∧
    ∀ ls : List (List Char), (∀ l ∈ ls, ¬ (END_LINE <+: l)) →
      is_applicable ls = none :=
  c5_is_applicable [("x").data] (("Total number in stack: 1").data) [] (by decide)
    (by decide)

/-- C7: at flush time, a completed path whose leaf (last) frame ends with any
member of `IGNORE_SYMBOLS` is discarded without touching the occurrence map —
and only the leaf is checked: when the leaf is clean the path is inserted no
matter what the interior frames are. -/
theorem c7_ignore_leaf (f : Folder) (occ : Occurrences) (leaf : List Char)
    (h : f.stack.getLast? = some leaf) :
    (ignCheck leaf = true → write_stack f occ = occ) ∧
    (ignCheck leaf = false →
      write_stack f occ = insertOcc occ (foldKey f.stack) f.current_samples) := by
  constructor <;> intro hi <;> simp [write_stack, h, hi]

/-- Witness for C7: the stack `[kevent, main]` has an ignored symbol in an
interior frame but a clean leaf, so its path is inserted. -/
theorem c7_ignore_leaf_witness :
    (ignCheck (("main").data) = true →
      write_stack ⟨4, [("kevent").data, ("main").data]⟩ [] = []) ∧
    (ignCheck (("main").data) = false →
      write_stack ⟨4, [("kevent").data, ("main").data]⟩ [] =
        insertOcc [] (foldKey [("kevent").data, ("main").data]) 4) :=
  c7_ignore_leaf ⟨4, [("kevent").data, ("main").data]⟩ [] (("main").data) (by decide)

/-! ## Claim C10: collapse over a fallible reader -/

/-- One `BufRead::read_line` outcome: a line, or an I/O error (the list ending
models end-of-stream). -/
abbrev ReadEvent := Except Unit (List Char)

/-- The data-section loop of `collapse` over read results.  A read error is
propagated by `?` at once: the occurrence map is dropped unwritten and the
folder keeps its mid-run state.  On the end marker or end-of-stream the final
flush, the write and the state reset all run. -/
def dataLoopE (no_modules : Bool) (f : Folder) (occ : Occurrences) :
    List ReadEvent → Folder × Except Unit (List (List Char × Nat))
  | [] => (⟨0, []⟩, .ok (write_stack f occ))
  | .error _ :: _ => (f, .error ())
  | .ok l :: ls =>
    let t := trimEnd l
    if t = [] then dataLoopE no_modules f occ ls
    else if starts_with t FOUR_SPACES then
      let r := on_line no_modules f t occ
      dataLoopE no_modules r.1 r.2 ls
    else if starts_with t END_LINE then (⟨0, []⟩, .ok (write_stack f occ))
    else dataLoopE no_modules f occ ls

/-- The header loop of `collapse` over read results: a read error propagates;
end-of-stream before the start marker is the early `return Ok(())`, which
leaves the folder untouched and writes nothing. -/
def headerLoopE (no_modules : Bool) (f : Folder) :
    List ReadEvent → Folder × Except Unit (List (List Char × Nat))
  | [] => (f, .ok [])
  | .error _ :: _ => (f, .error ())
  | .ok l :: ls =>
    if starts_with l START_LINE then dataLoopE no_modules f [] ls
    else headerLoopE no_modules f ls

/-- `<Folder as Collapse>::collapse` over a fallible reader: the folder state
at return, with either the written pairs or the propagated I/O error. -/
def collapseE (no_modules : Bool) (f : Folder) (reads : List ReadEvent) :
    Folder × Except Unit (List (List Char × Nat)) :=
  headerLoopE no_modules f reads

/-- The state change of one data-loop iteration on a line that is not the end
marker. -/
def dataStep (no_modules : Bool) (p : Folder × Occurrences) (l : List Char) :
    Folder × Occurrences :=
  let t := trimEnd l
  if t = [] then p
  else if starts_with t FOUR_SPACES then on_line no_modules p.1 t p.2
  else p

/-- The accumulated state after the data loop has consumed the given lines. -/
def dataSteps (no_modules : Bool) (p : Folder × Occurrences)
    (ls : List (List Char)) : Folder × Occurrences :=
  ls.foldl (dataStep no_modules) p

theorem dataLoopE_data_error (no_modules : Bool) (f : Folder) (occ : Occurrences)
    (ds : List (List Char)) (tail : List ReadEvent)
    (hds : ∀ l ∈ ds, ¬ (END_LINE <+: trimEnd l)) :
    dataLoopE no_modules f occ (ds.map .ok ++ .error () :: tail) =
      ((dataSteps no_modules (f, occ) ds).1, .error ()) := by
  induction ds generalizing f occ with
  | nil => rfl
  | cons l ls ih =>
    have hE : starts_with (trimEnd l) END_LINE = false := by
      simp [starts_with, hds l (List.mem_cons_self _ _)]
    have ih2 := fun f occ => ih f occ (fun x hx => hds x (List.mem_cons_of_mem _ hx))
    show dataLoopE no_modules f occ (.ok l :: (ls.map .ok ++ .error () :: tail)) = _
    have hstep : dataSteps no_modules (f, occ) (l :: ls) =
        dataSteps no_modules (dataStep no_modules (f, occ) l) ls := rfl
    rw [hstep]
    unfold dataLoopE
    by_cases ht : trimEnd l = []
    · simp only [ht, if_true]
      rw [ih2 f occ]
      simp [dataStep, ht]
    · by_cases h4 : starts_with (trimEnd l) FOUR_SPACES
      · simp only [ht, h4, if_true, if_false]
        rw [ih2 _ _]
        simp [dataStep, ht, h4]
      · simp only [ht, h4, hE, if_false]
        rw [ih2 f occ]
        simp [dataStep, ht, h4]

theorem dataLoopE_data_eof (no_modules : Bool) (f : Folder) (occ : Occurrences)
    (ds : List (List Char))
    (hds : ∀ l ∈ ds, ¬ (END_LINE <+: trimEnd l)) :
    dataLoopE no_modules f occ (ds.map .ok) =
      (⟨0, []⟩, .ok (write_stack (dataSteps no_modules (f, occ) ds).1
        (dataSteps no_modules (f, occ) ds).2)) := by
  induction ds generalizing f occ with
  | nil => rfl
  | cons l ls ih =>
    have hE : starts_with (trimEnd l) END_LINE = false := by
      simp [starts_with, hds l (List.mem_cons_self _ _)]
    have ih2 := fun f occ => ih f occ (fun x hx => hds x (List.mem_cons_of_mem _ hx))
    show dataLoopE no_modules f occ (.ok l :: ls.map .ok) = _
    have hstep : dataSteps no_modules (f, occ) (l :: ls) =
        dataSteps no_modules (dataStep no_modules (f, occ) l) ls := rfl
    rw [hstep]
    unfold dataLoopE
    by_cases ht : trimEnd l = []
    · simp only [ht, if_true]
      rw [ih2 f occ]
      simp [dataStep, ht]
    · by_cases h4 : starts_with (trimEnd l) FOUR_SPACES
      · simp only [ht, h4, if_true, if_false]
        rw [ih2 _ _]
        simp [dataStep, ht, h4]
      · simp only [ht, h4, hE, if_false]
        rw [ih2 f occ]
        simp [dataStep, ht, h4]

theorem headerLoopE_skip (no_modules : Bool) (f : Folder) (pre : List (List Char))
    (rest : List ReadEvent) (hpre : ∀ p ∈ pre, ¬ (START_LINE <+: p)) :
    headerLoopE no_modules f (pre.map .ok ++ rest) = headerLoopE no_modules f rest := by
  induction pre with
  | nil => rfl
  | cons p ps ih =>
    have hp : starts_with p START_LINE = false := by
      simp [starts_with, hpre p (List.mem_cons_self _ _)]
    have hunf : headerLoopE no_modules f (.ok p :: (ps.map .ok ++ rest)) =
        if starts_with p START_LINE = true then
          dataLoopE no_modules f [] (ps.map .ok ++ rest)
        else headerLoopE no_modules f (ps.map .ok ++ rest) := rfl
    show headerLoopE no_modules f (.ok p :: (ps.map .ok ++ rest)) = _
    rw [hunf, hp, if_neg Bool.false_ne_true]
    exact ih (fun x hx => hpre x (List.mem_cons_of_mem _ hx))

/-- C10: a read error at any point of `collapse` is propagated immediately —
during the data section the call returns the error with the folder keeping the
mid-run `CallStack` and `PendingSampleCount` (no final flush, no write, no
reset); during the header likewise.  By contrast, an error-free run that
reaches end-of-stream flushes, writes its output and resets the folder, so
the reset guarantee holds exactly for runs that return `Ok`. -/
theorem c10_error_propagation (no_modules : Bool) (f0 : Folder)
    (pre : List (List Char)) (s : List Char) (ds : List (List Char))
    (tail : List ReadEvent)
    (hpre : ∀ p ∈ pre, ¬ (START_LINE <+: p)) (hs : START_LINE <+: s)
    (hds : ∀ l ∈ ds, ¬ (END_LINE <+: trimEnd l)) :
    collapseE no_modules f0 (pre.map .ok ++ (.ok s :: (ds.map .ok ++ .error () :: tail))) =
      ((dataSteps no_modules (f0, []) ds).1, .error ()) ∧
    collapseE no_modules f0 (pre.map .ok ++ .error () :: tail) = (f0, .error ()) ∧
    collapseE no_modules f0 (pre.map .ok ++ .ok s :: ds.map .ok) =
      (⟨0, []⟩, .ok (write_stack (dataSteps no_modules (f0, []) ds).1
        (dataSteps no_modules (f0, []) ds).2)) := by
  have hstart : starts_with s START_LINE = true := by simpa [starts_with] using hs
  refine ⟨?_, ?_, ?_⟩
  · unfold collapseE
    rw [headerLoopE_skip no_modules f0 pre _ hpre]
    show headerLoopE no_modules f0 (.ok s :: (ds.map .ok ++ .error () :: tail)) = _
    unfold headerLoopE
    simp only [hstart, if_true]
    exact dataLoopE_data_error no_modules f0 [] ds tail hds
  · unfold collapseE
    rw [headerLoopE_skip no_modules f0 pre _ hpre]
    rfl
  · unfold collapseE
    rw [headerLoopE_skip no_modules f0 pre _ hpre]
    show headerLoopE no_modules f0 (.ok s :: ds.map .ok) = _
    unfold headerLoopE
    simp only [hstart, if_true]
    exact dataLoopE_data_eof no_modules f0 [] ds hds

/-- Witness for C10: after `Call graph:` and the data line `    5 a`, a read
error leaves the folder holding stack `[a]` and pending count 5 — not the
reset state — while the same error-free run resets and writes `a 5`. -/
theorem c10_error_propagation_witness :
    collapseE false ⟨0, []⟩
        [.ok (("Call graph:").data), .ok (("    5 a").data), .error ()] =
      (⟨5, [("a").data]⟩, .error ()) ∧
    collapseE false ⟨0, []⟩ [.error ()] = (⟨0, []⟩, .error ()) ∧
    collapseE false ⟨0, []⟩ [.ok (("Call graph:").data), .ok (("    5 a").data)] =
      (⟨0, []⟩, .ok [(("a").data, 5)]) :=
  c10_error_propagation false ⟨0, []⟩ [] (("Call graph:").data) [("    5 a").data] []
    (by decide) (by decide) (by decide)

/-! ## Claim C6: the two `no_modules` runs over a shared flush log

The instrumented engine below runs the `no_modules = false` parse but keeps
each frame as its (module, function) pair and records every inserted flush.
Both real runs are projections of it: the moduled run stores `render` of each
pair, the bare run stores the function component, and both occurrence maps are
the aggregation of the same flush log under the respective keys. -/

/-- A parsed frame: (module, demangle-fixed function name). -/
abbrev MF := List Char × List Char

/-- The frame string `parse_push` stores for a pair: `module`, backtick,
`func` — or the bare `func` when the module is empty. -/
def render (p : MF) : List Char :=
  if p.1 = [] then p.2 else p.1 ++ backtickChar :: p.2

/-- The instrumented folder: the stack keeps (module, function) pairs. -/
structure IFolder where
  current_samples : Nat
  stack : List MF

/-- Projection onto the `no_modules = false` run's folder. -/
def projR (f : IFolder) : Folder := ⟨f.current_samples, f.stack.map render⟩

/-- Projection onto the `no_modules = true` run's folder. -/
def projF (f : IFolder) : Folder := ⟨f.current_samples, f.stack.map Prod.snd⟩

/-- A flush log: each (stack, count) pair inserted by `write_stack`, in
order. -/
abbrev FlushLog := List (List MF × Nat)

/-- The flush event of one `write_stack` call: empty when the ignore filter
discards the path. -/
def flushEntry (f : IFolder) : FlushLog :=
  match f.stack.getLast? with
  | some p => if ignCheck (render p) then [] else [(f.stack, f.current_samples)]
  | none => [(f.stack, f.current_samples)]

/-- Instrumented `flush_pop`. -/
def flush_popI (f : IFolder) (depth : Nat) : IFolder × FlushLog :=
  if depth ≤ f.stack.length then
    (⟨f.current_samples, popN f.stack (f.stack.length - depth + 1)⟩, flushEntry f)
  else (f, [])

/-- Instrumented `parse_push`: always parses with module extraction on, and
pushes the pair instead of the rendered string. -/
def parse_pushI (f : IFolder) (rest : List Char) : IFolder :=
  match line_parts false rest with
  | some (samples, func, module) =>
    match parseUsize samples with
    | some n => ⟨n, f.stack ++ [(module, fix_partially_demangled_rust_symbol func)]⟩
    | none => f
  | none => f

/-- Instrumented `on_line`. -/
def on_lineI (f : IFolder) (line : List Char) : IFolder × FlushLog :=
  match (line.drop 4).findIdx? (fun c => !(is_indent_char c)) with
  | some indent_chars =>
    let fo := flush_popI f (indent_chars / 2 + 1)
    (parse_pushI fo.1 ((line.drop 4).drop indent_chars), fo.2)
  | none => (f, [])

/-- Instrumented data-section loop, accumulating the flush log. -/
def dataLoopI (f : IFolder) : List (List Char) → IFolder × FlushLog
  | [] => (f, flushEntry f)
  | l :: ls =>
    let t := trimEnd l
    if t = [] then dataLoopI f ls
    else if starts_with t FOUR_SPACES then
      let r := on_lineI f t
      let r2 := dataLoopI r.1 ls
      (r2.1, r.2 ++ r2.2)
    else if starts_with t END_LINE then (f, flushEntry f)
    else dataLoopI f ls

/-- The flush log of a whole collapse run. -/
def collapseLog (lines : List (List Char)) : FlushLog :=
  match skipHeader lines with
  | none => []
  | some rest => (dataLoopI ⟨0, []⟩ rest).2

/-- Aggregate a flush log under moduled keys (each frame rendered as
`module` + backtick + `func`, or bare `func` without a module). -/
def applyLogR (occ : Occurrences) (lg : FlushLog) : Occurrences :=
  lg.foldl (fun o e => insertOcc o (foldKey (e.1.map render)) e.2) occ

/-- Aggregate a flush log under function-name-only keys. -/
def applyLogF (occ : Occurrences) (lg : FlushLog) : Occurrences :=
  lg.foldl (fun o e => insertOcc o (foldKey (e.1.map Prod.snd)) e.2) occ

theorem applyLogR_append (occ : Occurrences) (a b : FlushLog) :
    applyLogR occ (a ++ b) = applyLogR (applyLogR occ a) b :=
  List.foldl_append _ _ _ _

theorem applyLogF_append (occ : Occurrences) (a b : FlushLog) :
    applyLogF occ (a ++ b) = applyLogF (applyLogF occ a) b :=
  List.foldl_append _ _ _ _

/-- A suffix that avoids the backtick passes through the module prefix: it is
a suffix of `module ++ backtick :: func` exactly when it is a suffix of
`func`. -/
theorem suffix_through_module (sym m fn : List Char) (hb : backtickChar ∉ sym) :
    sym <:+ m ++ backtickChar :: fn ↔ sym <:+ fn := by
  constructor
  · intro h
    obtain ⟨pre, hpre⟩ := h
    have hlen : pre.length + sym.length = m.length + (fn.length + 1) := by
      have := congrArg List.length hpre
      simpa [List.length_append] using this
    have hdrop : sym = (m ++ backtickChar :: fn).drop pre.length := by
      rw [← hpre, List.drop_left]
    by_cases hle : sym.length ≤ fn.length
    · have hplen : pre.length = (m ++ [backtickChar]).length + (fn.length - sym.length) := by
        simp only [List.length_append, List.length_cons, List.length_nil]
        omega
      rw [List.append_cons m backtickChar fn, hplen, List.drop_append] at hdrop
      rw [hdrop]
      exact List.drop_suffix _ _
    · exfalso
      have hple : pre.length ≤ m.length := by omega
      rw [List.drop_append_eq_append_drop] at hdrop
      have h0 : pre.length - m.length = 0 := by omega
      rw [h0, List.drop_zero] at hdrop
      exact hb (by
        rw [hdrop]
        exact List.mem_append_right _ (List.mem_cons_self _ _))
  · intro h
    exact h.trans ((List.suffix_cons backtickChar fn).trans
      (List.suffix_append m (backtickChar :: fn)))

theorem ends_with_render (p : MF) (s : List Char) (hb : backtickChar ∉ s) :
    ends_with (render p) s = ends_with p.2 s := by
  unfold render
  by_cases hm : p.1 = []
  · simp [hm]
  · rw [if_neg hm]
    unfold ends_with
    exact decide_eq_decide.mpr (suffix_through_module s p.1 p.2 hb)

theorem any_congr_mem {l : List (List Char)} {g h : List Char → Bool}
    (H : ∀ x ∈ l, g x = h x) : l.any g = l.any h := by
  induction l with
  | nil => rfl
  | cons a t ih =>
    simp only [List.any_cons, H a (List.mem_cons_self _ _),
      ih (fun x hx => H x (List.mem_cons_of_mem _ hx))]

/-- None of the ignored symbols contains a backtick, so the ignore filter sees
through module qualification: the rendered frame ends with an ignored symbol
exactly when its function component does. -/
theorem ignCheck_render (p : MF) : ignCheck (render p) = ignCheck p.2 := by
  unfold ignCheck
  refine any_congr_mem (fun s hs => ?_)
  have hb : backtickChar ∉ s := by fin_cases hs <;> decide
  exact ends_with_render p s hb

theorem write_stack_projR (f : IFolder) (occ : Occurrences) :
    write_stack (projR f) occ = applyLogR occ (flushEntry f) := by
  unfold write_stack projR flushEntry
  simp only [List.getLast?_map]
  cases h : f.stack.getLast? with
  | none => simp [h, applyLogR]
  | some p =>
    by_cases hi : ignCheck (render p)
    · simp [h, hi, applyLogR]
    · simp [h, hi, applyLogR]

theorem write_stack_projF (f : IFolder) (occ : Occurrences) :
    write_stack (projF f) occ = applyLogF occ (flushEntry f) := by
  unfold write_stack projF flushEntry
  simp only [List.getLast?_map]
  cases h : f.stack.getLast? with
  | none => simp [h, applyLogF]
  | some p =>
    by_cases hi : ignCheck (render p)
    · rw [ignCheck_render] at hi
      simp [h, hi, ignCheck_render, applyLogF]
    · rw [ignCheck_render] at hi
      simp [h, hi, ignCheck_render, applyLogF]

theorem flush_pop_projR (f : IFolder) (occ : Occurrences) (d : Nat) :
    flush_pop (projR f) occ d =
      (projR (flush_popI f d).1, applyLogR occ (flush_popI f d).2) := by
  unfold flush_pop flush_popI
  have hlen : (projR f).stack.length = f.stack.length := by simp [projR]
  rw [hlen]
  by_cases hd : d ≤ f.stack.length
  · simp only [hd, if_true]
    rw [write_stack_projR]
    simp [projR, popN_map]
  · simp only [hd, if_false]
    rfl

theorem flush_pop_projF (f : IFolder) (occ : Occurrences) (d : Nat) :
    flush_pop (projF f) occ d =
      (projF (flush_popI f d).1, applyLogF occ (flush_popI f d).2) := by
  unfold flush_pop flush_popI
  have hlen : (projF f).stack.length = f.stack.length := by simp [projF]
  rw [hlen]
  by_cases hd : d ≤ f.stack.length
  · simp only [hd, if_true]
    rw [write_stack_projF]
    simp [projF, popN_map]
  · simp only [hd, if_false]
    rfl

/-- `line_parts` with module-qualification off differs only in the empty
module component. -/
theorem line_parts_no_modules (rest : List Char) :
    line_parts true rest =
      (line_parts false rest).map (fun x => (x.1, x.2.1, ([] : List Char))) := by
  unfold line_parts
  cases h : (trimStart rest).findIdx? (fun c => c == ' ') with
  | none => simp [h]
  | some i => simp [h]

theorem parse_push_projR (g : IFolder) (occ : Occurrences) (rest : List Char) :
    parse_push false (projR g) occ rest = (projR (parse_pushI g rest), occ) := by
  unfold parse_push parse_pushI
  cases hlp : line_parts false rest with
  | none => simp [hlp]
  | some t =>
    obtain ⟨samples, func, module⟩ := t
    simp only [hlp]
    cases hpu : parseUsize samples with
    | none => rfl
    | some n => simp [projR, List.map_append, render]

theorem parse_push_projF (g : IFolder) (occ : Occurrences) (rest : List Char) :
    parse_push true (projF g) occ rest = (projF (parse_pushI g rest), occ) := by
  unfold parse_push parse_pushI
  rw [line_parts_no_modules]
  cases hlp : line_parts false rest with
  | none => simp [hlp]
  | some t =>
    obtain ⟨samples, func, module⟩ := t
    simp only [hlp, Option.map_some']
    cases hpu : parseUsize samples with
    | none => rfl
    | some n => simp [projF, List.map_append]

theorem on_line_projR (f : IFolder) (line : List Char) (occ : Occurrences) :
    on_line false (projR f) line occ =
      (projR (on_lineI f line).1, applyLogR occ (on_lineI f line).2) := by
  unfold on_line on_lineI
  cases hfi : (line.drop 4).findIdx? (fun c => !(is_indent_char c)) with
  | none => rfl
  | some ic =>
    dsimp only
    rw [flush_pop_projR]
    dsimp only
    rw [parse_push_projR]

theorem on_line_projF (f : IFolder) (line : List Char) (occ : Occurrences) :
    on_line true (projF f) line occ =
      (projF (on_lineI f line).1, applyLogF occ (on_lineI f line).2) := by
  unfold on_line on_lineI
  cases hfi : (line.drop 4).findIdx? (fun c => !(is_indent_char c)) with
  | none => rfl
  | some ic =>
    dsimp only
    rw [flush_pop_projF]
    dsimp only
    rw [parse_push_projF]

theorem dataLoop_cons (no_modules : Bool) (f : Folder) (occ : Occurrences)
    (l : List Char) (ls : List (List Char)) :
    dataLoop no_modules f occ (l :: ls) =
      if trimEnd l = [] then dataLoop no_modules f occ ls
      else if starts_with (trimEnd l) FOUR_SPACES then
        dataLoop no_modules (on_line no_modules f (trimEnd l) occ).1
          (on_line no_modules f (trimEnd l) occ).2 ls
      else if starts_with (trimEnd l) END_LINE then (f, write_stack f occ)
      else dataLoop no_modules f occ ls := rfl

theorem dataLoopI_cons (f : IFolder) (l : List Char) (ls : List (List Char)) :
    dataLoopI f (l :: ls) =
      if trimEnd l = [] then dataLoopI f ls
      else if starts_with (trimEnd l) FOUR_SPACES then
        ((dataLoopI (on_lineI f (trimEnd l)).1 ls).1,
          (on_lineI f (trimEnd l)).2 ++ (dataLoopI (on_lineI f (trimEnd l)).1 ls).2)
      else if starts_with (trimEnd l) END_LINE then (f, flushEntry f)
      else dataLoopI f ls := rfl

theorem dataLoop_projR (ls : List (List Char)) (f : IFolder) (occ : Occurrences) :
    dataLoop false (projR f) occ ls =
      (projR (dataLoopI f ls).1, applyLogR occ (dataLoopI f ls).2) := by
  induction ls generalizing f occ with
  | nil =>
    show (projR f, write_stack (projR f) occ) = _
    rw [write_stack_projR]
    rfl
  | cons l t ih =>
    rw [dataLoop_cons, dataLoopI_cons]
    by_cases h1 : trimEnd l = []
    · simp only [h1, if_true]
      exact ih f occ
    · by_cases h2 : starts_with (trimEnd l) FOUR_SPACES
      · simp only [h1, h2, if_true, if_false]
        rw [on_line_projR]
        dsimp only
        rw [ih]
        rw [applyLogR_append]
      · by_cases h3 : starts_with (trimEnd l) END_LINE
        · simp [h1, h2, h3, write_stack_projR]
        · simp only [h1, h2, h3, Bool.false_eq_true, if_false]
          exact ih f occ

theorem dataLoop_projF (ls : List (List Char)) (f : IFolder) (occ : Occurrences) :
    dataLoop true (projF f) occ ls =
      (projF (dataLoopI f ls).1, applyLogF occ (dataLoopI f ls).2) := by
  induction ls generalizing f occ with
  | nil =>
    show (projF f, write_stack (projF f) occ) = _
    rw [write_stack_projF]
    rfl
  | cons l t ih =>
    rw [dataLoop_cons, dataLoopI_cons]
    by_cases h1 : trimEnd l = []
    · simp only [h1, if_true]
      exact ih f occ
    · by_cases h2 : starts_with (trimEnd l) FOUR_SPACES
      · simp only [h1, h2, if_true, if_false]
        rw [on_line_projF]
        dsimp only
        rw [ih]
        rw [applyLogF_append]
      · by_cases h3 : starts_with (trimEnd l) END_LINE
        · simp [h1, h2, h3, write_stack_projF]
        · simp only [h1, h2, h3, Bool.false_eq_true, if_false]
          exact ih f occ

/-- An input on which the two `no_modules` runs disagree about paths and
counts: a bare function literally named ``m`f`` collides with the rendered
frame of function `f` in module `m`. -/
def c6Input : List (List Char) :=
  [("Call graph:").data,
   ("    5 m`f").data,
   ("    5 f (in m)").data,
   ("Total number in stack: 2").data]

/-- C6 counterexample: with `no_modules = false` the bare frame ``m`f`` and
the module-qualified frame of `f (in m)` render to the same key, so the run
outputs the single entry ``m`f 10``, while the `no_modules = true` run outputs
``m`f 5`` and `f 5`.  Deleting module prefixes only renames paths and never
changes counts, yet the count multisets `[10]` and `[5, 5]` differ — the
claimed identity of function-name paths and their counts fails. -/
theorem c6_counterexample :
    (collapseRun false ⟨0, []⟩ c6Input).1 = [(("m`f").data, 10)] ∧
    (collapseRun true ⟨0, []⟩ c6Input).1 = [(("m`f").data, 5), (("f").data, 5)] ∧
    (collapseRun false ⟨0, []⟩ c6Input).1.map Prod.snd ≠
      (collapseRun true ⟨0, []⟩ c6Input).1.map Prod.snd := by
  refine ⟨by decide, by decide, by decide⟩

/-- C6 (amended): both runs of `collapse` are aggregations of one and the same
flush log — the `no_modules = true` run under keys joining the bare function
names of each flushed path, the `no_modules = false` run under keys joining
the same frames rendered with their `module` + backtick prefix (absent when no
module was recovered).  The two runs therefore flush the same (function-name
path, count) events in the same order; the original per-path count identity
holds exactly as far as distinct function-name paths keep distinct rendered
keys, and can fail only through a key collision such as `c6Input`'s. -/
theorem c6_module_toggle (lines : List (List Char)) :
    (collapseRun true ⟨0, []⟩ lines).1 = applyLogF [] (collapseLog lines) ∧
    (collapseRun false ⟨0, []⟩ lines).1 = applyLogR [] (collapseLog lines) := by
  unfold collapseRun collapseLog
  cases h : skipHeader lines with
  | none => exact ⟨rfl, rfl⟩
  | some rest =>
    constructor
    · show (dataLoop true ⟨0, []⟩ [] rest).2 = _
      have he : (⟨0, []⟩ : Folder) = projF ⟨0, []⟩ := rfl
      rw [he, dataLoop_projF]
    · show (dataLoop false ⟨0, []⟩ [] rest).2 = _
      have he : (⟨0, []⟩ : Folder) = projR ⟨0, []⟩ := rfl
      rw [he, dataLoop_projR]

/-- Witness for C6 at the concrete scenario input. -/
theorem c6_module_toggle_witness :
    (collapseRun true ⟨0, []⟩ sampleScenario).1 = applyLogF [] (collapseLog sampleScenario) ∧
    (collapseRun false ⟨0, []⟩ sampleScenario).1 = applyLogR [] (collapseLog sampleScenario) :=
  c6_module_toggle sampleScenario

/-- Witness for C8 (amended) at a concrete sibling-leaf line. -/
theorem c8_stack_growth_bound_witness :
    (on_line false ⟨5, [("a").data]⟩ (("    7 b").data) []).1.stack.length ≤
      [("a").data].length + 1 :=
  c8_stack_growth_bound false ⟨5, [("a").data]⟩ (("    7 b").data) []

end Inferno
